import Mathlib

/-!
Verification of the `image-processor` batch image conversion pipeline
(`src/image-processor.js`, second variant: the fully-featured class with
metadata handling, a concurrency limiter and report generation).

The JavaScript methods are shallowly embedded as Lean functions:
pure string manipulation (`#createOutputPath`, `#parseImagePath`,
`#filterMetadata`) becomes pure functions on `String` / `List Char`;
filesystem and codec effects (`sharp`, `statSync`, `mkdirSync`,
`fsPromises.writeFile`) become an explicit `CodecOracle` of outcome
functions; JavaScript `Number` arithmetic on the division path becomes
the `JsNum` type with IEEE-style infinity/NaN propagation; the
`p-limit` concurrency scheduler becomes a small-step transition system
on scheduler states.
-/

/-! ## JavaScript string primitives -/

/-- Last index of a character in a character list (`String.prototype.lastIndexOf`
for a one-character needle), or `none` when absent. -/
def lastIdx (c : Char) : List Char → Option Nat
  | [] => none
  | a :: rest =>
    match lastIdx c rest with
    | some n => some (n + 1)
    | none => if a = c then some 0 else none

/-- JS `s.lastIndexOf(c)`: the last index of `c` in `s`, or `-1`. -/
def jsLastIndexOfChar (s : String) (c : Char) : Int :=
  match lastIdx c s.data with
  | none => -1
  | some n => n

/-- Whether `pat` is an initial run of `l` (used to locate substring matches). -/
def startsWithList : List Char → List Char → Bool
  | [], _ => true
  | _ :: _, [] => false
  | p :: ps, c :: cs => p == c && startsWithList ps cs

/-- Replace the first (leftmost) occurrence of `pat` by `rep`
(`String.prototype.replace` with a string pattern); the list is returned
unchanged when `pat` does not occur. -/
def replaceFirstAux (pat rep : List Char) : List Char → List Char
  | [] => if startsWithList pat [] then rep else []
  | c :: cs =>
    if startsWithList pat (c :: cs) then rep ++ (c :: cs).drop pat.length
    else c :: replaceFirstAux pat rep cs

/-- JS `s.replace(pat, rep)` for plain string patterns: first occurrence only. -/
def jsReplaceFirst (s pat rep : String) : String :=
  String.mk (replaceFirstAux pat.data rep.data s.data)

/-- JS `s.slice(0, n)` for `0 ≤ n`: the first `n` characters. -/
def jsSliceTo (s : String) (n : Nat) : String :=
  String.mk (s.data.take n)

/-- The characters after the last occurrence of `c`, or `none` when `c`
does not occur. -/
def afterLastChar (c : Char) (l : List Char) : Option (List Char) :=
  (lastIdx c l).map (fun i => l.drop (i + 1))

/-! ## JavaScript number model

`JsNum` models the IEEE-754 behaviour that matters on the
`(1 - convertedSize / originalSize) * 100` computation path: division by
zero produces an infinity (or NaN for `0/0`), and infinities / NaN
propagate through subtraction and multiplication.  Finite values are
modelled as exact rationals (the claims in question concern the
zero-denominator behaviour, not rounding). The model has no negative
zero. -/

inductive JsNum where
  | num (q : ℚ) : JsNum
  | posInf : JsNum
  | negInf : JsNum
  | nan : JsNum
  deriving DecidableEq

/-- JS division. `x / 0` is `Infinity`, `-Infinity` or `NaN` according to
the sign of `x`; infinities and NaN propagate as in IEEE-754. -/
def jsDiv : JsNum → JsNum → JsNum
  | .nan, _ => .nan
  | _, .nan => .nan
  | .num a, .num b =>
    if b = 0 then (if a = 0 then .nan else if 0 < a then .posInf else .negInf)
    else .num (a / b)
  | .posInf, .num b => if b < 0 then .negInf else .posInf
  | .negInf, .num b => if b < 0 then .posInf else .negInf
  | .num _, .posInf => .num 0
  | .num _, .negInf => .num 0
  | .posInf, .posInf => .nan
  | .posInf, .negInf => .nan
  | .negInf, .posInf => .nan
  | .negInf, .negInf => .nan

/-- JS subtraction with IEEE-754 infinity/NaN propagation. -/
def jsSub : JsNum → JsNum → JsNum
  | .nan, _ => .nan
  | _, .nan => .nan
  | .num a, .num b => .num (a - b)
  | .num _, .posInf => .negInf
  | .num _, .negInf => .posInf
  | .posInf, .num _ => .posInf
  | .negInf, .num _ => .negInf
  | .posInf, .negInf => .posInf
  | .negInf, .posInf => .negInf
  | .posInf, .posInf => .nan
  | .negInf, .negInf => .nan

/-- JS multiplication with IEEE-754 infinity/NaN propagation. -/
def jsMul : JsNum → JsNum → JsNum
  | .nan, _ => .nan
  | _, .nan => .nan
  | .num a, .num b => .num (a * b)
  | .posInf, .num b => if b = 0 then .nan else if 0 < b then .posInf else .negInf
  | .negInf, .num b => if b = 0 then .nan else if 0 < b then .negInf else .posInf
  | .num a, .posInf => if a = 0 then .nan else if 0 < a then .posInf else .negInf
  | .num a, .negInf => if a = 0 then .nan else if 0 < a then .negInf else .posInf
  | .posInf, .posInf => .posInf
  | .negInf, .negInf => .posInf
  | .posInf, .negInf => .negInf
  | .negInf, .posInf => .negInf

/-- Source line 410: `const compressionRatio = (1 - convertedSize / originalSize) * 100;`
with the byte counts coming from `statSync(...).size` (non-negative integers). -/
def compressionRatioPct (originalSize convertedSize : Nat) : JsNum :=
  jsMul (jsSub (.num 1) (jsDiv (.num convertedSize) (.num originalSize))) (.num 100)

/-! ## Configuration (typed view of `#DEFAULT_CONFIG`, lines 200-238) -/

/-- Per-target-format encode settings (`{ quality: 80 }`). -/
structure FormatSettings where
  quality : Nat
  deriving DecidableEq

/-- The `outputSettings` block of the configuration. -/
structure OutputSettings where
  keepIccProfile : Bool
  keepMetadata : Bool
  keepMetadataKeys : List String
  deriving DecidableEq

/-- The `resizeConfig` block of the configuration. -/
structure ResizeConfig where
  width : Nat
  height : Nat
  fit : String
  position : String
  withoutEnlargement : Bool
  deriving DecidableEq

/-- One run's configuration. `conversionFormats` maps a source extension to
the association list of target formats with their settings, exactly as in the
source object literal. -/
structure RunConfig where
  sourceDirectory : String
  outputDirectory : String
  outputSettings : OutputSettings
  resizeConfig : Option ResizeConfig
  conversionFormats : List (String × List (String × FormatSettings))
  maxConcurrency : Nat
  generateReport : Bool
  deriving DecidableEq

/-- `#DEFAULT_CONFIG` of the featured variant (lines 200-238). -/
def defaultConfig : RunConfig where
  sourceDirectory := "src"
  outputDirectory := "dist"
  outputSettings :=
    { keepIccProfile := true
      keepMetadata := false
      keepMetadataKeys := ["exif", "iptc", "xmp", "orientation", "copyright", "rating"] }
  resizeConfig := some
    { width := 1920, height := 1920, fit := "inside", position := "center",
      withoutEnlargement := true }
  conversionFormats :=
    [("png", [("webp", { quality := 80 })]),
     ("jpg", [("webp", { quality := 80 })]),
     ("jpeg", [("webp", { quality := 80 })])]
  maxConcurrency := 5
  generateReport := true

/-- `Object.keys(this.#config.conversionFormats)` — the recognized source
extensions, in declaration order. -/
def formatKeys (cfg : RunConfig) : List String :=
  cfg.conversionFormats.map (fun kv => kv.1)

/-- `this.#config.conversionFormats[ext]` — the target formats configured for
a source extension (empty when the extension is not a key; in JS that access
would yield `undefined`). -/
def lookupFormats (cfg : RunConfig) (ext : String) : List (String × FormatSettings) :=
  match cfg.conversionFormats.find? (fun kv => kv.1 == ext) with
  | none => []
  | some kv => kv.2

/-! ## Path Mapper -/

/-- `#createOutputPath` (lines 555-573):

```js
const lastDot = sourcePath.lastIndexOf(".");
const lastSlash = Math.max(sourcePath.lastIndexOf("/"), sourcePath.lastIndexOf("\\"));
let outputPath = sourcePath.replace(sourceDirectory, outputDirectory);
outputPath = lastDot === -1 || lastSlash > lastDot ? outputPath : outputPath.slice(0, lastDot + 1);
return outputPath + "." + newFormat;
```

Note the indices are computed on `sourcePath` but the slice is applied to the
replaced string. -/
def createOutputPath (cfg : RunConfig) (sourcePath newFormat : String) : String :=
  let lastDot : Int := jsLastIndexOfChar sourcePath '.'
  let lastSlash : Int :=
    max (jsLastIndexOfChar sourcePath '/') (jsLastIndexOfChar sourcePath '\\')
  let replaced := jsReplaceFirst sourcePath cfg.sourceDirectory cfg.outputDirectory
  let trimmed :=
    if lastDot = -1 ∨ lastSlash > lastDot then replaced
    else jsSliceTo replaced (lastDot + 1).toNat
  trimmed ++ "." ++ newFormat

/-- The `{ name, extension }` record produced by `#parseImagePath`. -/
structure ImagePathInfo where
  name : String
  extension : String
  deriving DecidableEq

/-- Case-insensitive membership of an extension candidate in the key
alternation `(${extensions.join("|")})` of the `#parseImagePath` regex
(flag `i`): the candidate matches some key up to ASCII case. -/
def ciMatchesKey (keys : List String) (e : List Char) : Bool :=
  keys.any (fun k => e.map Char.toLower == k.data.map Char.toLower)

/-- All decompositions `seg = name ++ '.' :: ext` of the final path segment,
in the order a greedy `[^\/]+\.` tries them: longest `name` (i.e. rightmost
dot) first.  This is the backtracking order of the `#parseImagePath` regex. -/
def greedySplits : List Char → List (List Char × List Char)
  | [] => []
  | c :: rest =>
    (greedySplits rest).map (fun p => (c :: p.1, p.2)) ++
      (if c = '.' then [([], rest)] else [])

/-- The first decomposition of the final segment accepted by the regex body
`([^\/]+)\.(${extensions.join("|")})$`: nonempty name, extension in the key
alternation (case-insensitively).  The segment contains no `/` by
construction (it is everything after the last `/`), so the `[^\/]` class
constraint is automatic. -/
def segMatchGreedy (keys : List String) (seg : List Char) :
    Option (List Char × List Char) :=
  (greedySplits seg).find? (fun p => !p.1.isEmpty && ciMatchesKey keys p.2)

/-- `#parseImagePath` (lines 532-546): matches
`new RegExp("\\/([^\\/]+)\\.(" + extensions.join("|") + ")$", "i")` against
the path and returns `{ name: match[1], extension: match[2].toLowerCase() }`,
or `null` when there is no match.  The regex can only match starting at the
last `/` of the path (the `[^\/]+` group cannot cross a later `/` and `$`
anchors the end), so a path without `/` never matches. -/
def parseImagePath (keys : List String) (imagePath : String) : Option ImagePathInfo :=
  match afterLastChar '/' imagePath.data with
  | none => none
  | some seg =>
    match segMatchGreedy keys seg with
    | none => none
    | some p => some ⟨String.mk p.1, String.mk (p.2.map Char.toLower)⟩

/-- Spec-level description of `parseImagePath` (claim C5, amended): the path
must contain a `/` separator; the final segment splits at its last dot into a
nonempty base name and an extension; the lowercased extension must be a
recognized conversion-format key, else the result is `null`. -/
def parseImagePathSpec (keys : List String) (imagePath : String) : Option ImagePathInfo :=
  match afterLastChar '/' imagePath.data with
  | none => none
  | some seg =>
    match lastIdx '.' seg with
    | none => none
    | some i =>
      let name := seg.take i
      let ext := (seg.drop (i + 1)).map Char.toLower
      if name ≠ [] ∧ String.mk ext ∈ keys then some ⟨String.mk name, String.mk ext⟩
      else none

/-! ## Conversion Task and pipeline

Filesystem and codec effects are supplied by a `CodecOracle`: each field
gives the outcome the corresponding external call would produce.  The
`sharp` processing chain (ICC profile retention, metadata setter probing,
resize, encode settings) determines the bytes written, which the model
summarizes through `encodeResult` / `outSizeOf`. -/

/-- One structured log event per §6 console event; formatting is out of
scope, so events are symbolic. -/
inductive LogEvent where
  | dirCreated (dir : String)
  | metadataWarning (path : String)
  | conversionLogged (src out fmt : String)
  | reportGenerated (reportPath : String)
  | reportFailed (msg : String)
  | noImagesWarning
  deriving DecidableEq

/-- Outcomes of the external calls made by one run. -/
structure CodecOracle where
  metadataOf : String → Except String (List (String × String))
  mkdirResult : String → Except String Unit
  sizeOf : String → Nat
  encodeResult : String → String → Except String Unit
  outSizeOf : String → Nat

/-- The error taxonomy of §7 as thrown by the featured variant. -/
inductive TaskError where
  | invalidImagePath (p : String)
  | invalidSourceTree (p : String)
  | dirCreateError (dir msg : String)
  | codecError (fmt msg : String)
  deriving DecidableEq

/-- One `ConversionResult` (lines 419-427).  The source field
`compressionRatio` is named `ratioPct` here. -/
structure ConversionResult where
  sourcePath : String
  outputPath : String
  originalSize : Nat
  convertedSize : Nat
  ratioPct : JsNum
  format : String
  metadata : List (String × String)
  deriving DecidableEq

/-- `#filterMetadata` (lines 365-370):
`Object.fromEntries(Object.entries(metadata).filter(([key]) => keepMetadataKeys.includes(key)))`.
JS objects keep insertion order and have unique keys, so entries/fromEntries
round-trip to a filter on the association list. -/
def filterMetadata (allowedKeys : List String) (metadata : List (String × String)) :
    List (String × String) :=
  metadata.filter (fun kv => allowedKeys.contains kv.1)

/-- `#extractMetadata` (lines 347-357): asks the codec for the metadata;
on success returns it filtered (or `{}` when `keepMetadata` is off); the
`catch` arm logs a warning and returns `{}` — it never rethrows. -/
def extractMetadata (cfg : RunConfig) (oracle : CodecOracle) (imagePath : String) :
    List (String × String) × List LogEvent :=
  match oracle.metadataOf imagePath with
  | .ok m =>
    (if cfg.outputSettings.keepMetadata then filterMetadata cfg.outputSettings.keepMetadataKeys m
     else [], [])
  | .error _ => ([], [.metadataWarning imagePath])

/-- The `(.*/)?` capture of `#ensureOutputDirectory`: everything up to and
including the last `/`, or empty when there is no `/`. -/
def dirPortion (l : List Char) : List Char :=
  match afterLastChar '/' l with
  | none => []
  | some t => l.take (l.length - t.length)

/-- `#ensureOutputDirectory` (lines 489-512): the path must match
`^${sourceDirectory}/(.*/)?` (for a metacharacter-free source directory this
is a plain prefix test), else `無効なソースディレクトリ構造` is thrown; then the
mirrored output directory is created (the `existsSync` fast path is folded
into the `mkdirResult` outcome); a `mkdir` failure is rethrown. -/
def ensureOutputDirectory (cfg : RunConfig) (oracle : CodecOracle) (imagePath : String) :
    Except TaskError (List LogEvent) :=
  let srcSlash := cfg.sourceDirectory ++ "/"
  if startsWithList srcSlash.data imagePath.data then
    let subPath := dirPortion (imagePath.data.drop srcSlash.data.length)
    let outputDir := cfg.outputDirectory ++ "/" ++ String.mk subPath
    match oracle.mkdirResult outputDir with
    | .ok _ => .ok [.dirCreated outputDir]
    | .error e => .error (.dirCreateError outputDir e)
  else .error (.invalidSourceTree imagePath)

/-- `#convertToFormat` (lines 381-435): compute the output path, read the
original size, run the sharp chain (ICC/metadata/resize/encode folded into
the oracle's `encodeResult`), read the converted size and build the
`ConversionResult`; a codec failure is wrapped and rethrown. -/
def convertToFormat (cfg : RunConfig) (oracle : CodecOracle)
    (sourcePath targetFormat : String) (settings : FormatSettings)
    (metadata : List (String × String)) : Except TaskError ConversionResult :=
  let outputPath := createOutputPath cfg sourcePath targetFormat
  let originalSize := oracle.sizeOf sourcePath
  match oracle.encodeResult sourcePath targetFormat with
  | .error e => .error (.codecError targetFormat e)
  | .ok _ =>
    let convertedSize := oracle.outSizeOf outputPath
    .ok { sourcePath := sourcePath, outputPath := outputPath,
          originalSize := originalSize, convertedSize := convertedSize,
          ratioPct := compressionRatioPct originalSize convertedSize,
          format := targetFormat, metadata := metadata }

/-- The `Promise.all(Object.entries(formatSettings).map(...))` of
`#convertImage` (lines 318-332): convert each target format, overriding each
result with the image-level `originalSize` and `metadata`; the first
rejection aborts the batch. -/
def convertFormats (cfg : RunConfig) (oracle : CodecOracle) (imagePath : String)
    (meta : List (String × String)) (originalSize : Nat) :
    List (String × FormatSettings) → Except TaskError (List ConversionResult)
  | [] => .ok []
  | (fmt, settings) :: rest =>
    match convertToFormat cfg oracle imagePath fmt settings meta with
    | .error e => .error e
    | .ok r =>
      match convertFormats cfg oracle imagePath meta originalSize rest with
      | .error e => .error e
      | .ok rs => .ok ({ r with originalSize := originalSize, metadata := meta } :: rs)

/-- `#convertImage` (lines 305-339): parse the path (`null` throws
`無効な画像パス` before the `try` block), ensure the output directory, read the
image-level metadata and size, then run all configured target formats. -/
def convertImage (cfg : RunConfig) (oracle : CodecOracle) (imagePath : String) :
    Except TaskError (List ConversionResult) :=
  match parseImagePath (formatKeys cfg) imagePath with
  | none => .error (.invalidImagePath imagePath)
  | some info =>
    match ensureOutputDirectory cfg oracle imagePath with
    | .error e => .error e
    | .ok _ =>
      let originalMetadata := (extractMetadata cfg oracle imagePath).1
      let originalSize := oracle.sizeOf imagePath
      convertFormats cfg oracle imagePath originalMetadata originalSize
        (lookupFormats cfg info.extension)

/-- The fail-fast aggregation of `#processImages` over per-image tasks:
every image is converted, the first rejection surfaces, successful batches
are appended into the run-level result buffer (aggregation order is
immaterial to the claims; the model uses input order). -/
def mapConvert (cfg : RunConfig) (oracle : CodecOracle) :
    List String → Except TaskError (List (List ConversionResult))
  | [] => .ok []
  | p :: rest =>
    match convertImage cfg oracle p with
    | .error e => .error e
    | .ok rs =>
      match mapConvert cfg oracle rest with
      | .error e => .error e
      | .ok rest' => .ok (rs :: rest')

/-- `#processImages` (lines 276-298): empty input is a warned no-op;
otherwise all tasks run under the limiter and `Promise.all` rethrows the
first failure. -/
def processImages (cfg : RunConfig) (oracle : CodecOracle) (imagePaths : List String) :
    Except TaskError (List ConversionResult) :=
  if imagePaths.isEmpty then .ok []
  else
    match mapConvert cfg oracle imagePaths with
    | .error e => .error e
    | .ok batches => .ok batches.flatten

/-- The aggregate numbers of the report document (timestamp and
human-readable rendering are outside the verified scope). -/
structure ReportSummary where
  totalImages : Nat
  totalOriginalSize : Nat
  totalConvertedSize : Nat
  deriving DecidableEq

/-- `#generateConversionReport` (lines 441-482): skipped for an empty result
list; otherwise the report is built and written — a write failure is caught
and logged (`レポート生成に失敗`), never rethrown. -/
def generateConversionReport (cfg : RunConfig) (results : List ConversionResult)
    (writeResult : Except String Unit) : Option ReportSummary × List LogEvent :=
  if results.isEmpty then (none, [])
  else
    let summary : ReportSummary :=
      { totalImages := results.length
        totalOriginalSize := (results.map (fun r => r.originalSize)).sum
        totalConvertedSize := (results.map (fun r => r.convertedSize)).sum }
    match writeResult with
    | .ok _ => (some summary, [.reportGenerated (cfg.outputDirectory ++ "/conversion-report.json")])
    | .error msg => (some summary, [.reportFailed msg])

/-- `#initialize` (lines 263-269): process all images, then generate the
report when enabled; a processing failure propagates (the constructor's
`.catch` logs and rethrows), while the report step cannot fail. -/
def runPipeline (cfg : RunConfig) (oracle : CodecOracle) (imagePaths : List String)
    (writeResult : Except String Unit) : Except TaskError Unit × List LogEvent :=
  match processImages cfg oracle imagePaths with
  | .error e => (.error e, [])
  | .ok results =>
    if cfg.generateReport then
      (.ok (), (generateConversionReport cfg results writeResult).2)
    else (.ok (), [])

/-! ## Concurrency Scheduler model

`#processImages` wraps each `#convertImage` call in `pLimit(maxConcurrency)`,
so at most `maxConcurrency` *image* tasks are admitted at once.  Inside one
admitted image task, `#convertImage` starts every per-format conversion in a
single synchronous stretch (`Promise.all` over `Object.entries(formatSettings)`;
each async arrow runs synchronously into `#convertToFormat` until the
`await ... .toFile(...)` suspension), so all of that image's format
conversions are in the `Encoding` state simultaneously.

The limiter frees an image's slot when the `#convertImage` promise settles —
by resolution once all of its conversions are done, or by *rejection* as
soon as one of its conversions fails (the inner `Promise.all` rejects
immediately).  Promises are not cancellable, so on the rejection path the
image's remaining sibling encodes keep running with no slot held: they
become orphans, still in the `Encoding` state, while `p-limit` admits the
next queued image.

A scheduler state records the images not yet admitted by the limiter, for
each admitted image the multiset of its format conversions still encoding,
and the count of orphaned encodes of already-settled images.  An image is
represented by its list of target formats (its fan-out). -/

/-- Scheduler state: `pending` images awaiting a limiter slot, `active`
admitted images with their still-encoding format conversions, `orphans`
still-encoding conversions of images that already settled by rejection. -/
structure SchedState where
  pending : List (List String)
  active : List (List String)
  orphans : Nat
  deriving DecidableEq

/-- Number of Conversion Tasks in the `Encoding` state (including orphaned
encodes of images whose task already settled by rejection). -/
def encodingCount (s : SchedState) : Nat :=
  (s.active.map List.length).sum + s.orphans

/-- Transitions of the limiter/fan-out system:
`begin` admits the next pending image when a slot is free and starts all its
format conversions at once; `finishOne` completes one encoding conversion;
`settle` retires an image whose conversions are all done, freeing its slot;
`reject` settles an image the moment one of its conversions fails — the slot
is freed while the image's remaining encodes keep running as orphans;
`orphanFinishOne` lets an orphaned encode terminate. -/
inductive SchedStep (k : Nat) : SchedState → SchedState → Prop
  | begin (img : List String) (rest act : List (List String)) (orphans : Nat) :
      act.length < k →
      SchedStep k ⟨img :: rest, act, orphans⟩ ⟨rest, img :: act, orphans⟩
  | finishOne (pend pre post : List (List String)) (orphans : Nat)
      (f : String) (fs : List String) :
      SchedStep k ⟨pend, pre ++ (f :: fs) :: post, orphans⟩
        ⟨pend, pre ++ fs :: post, orphans⟩
  | settle (pend pre post : List (List String)) (orphans : Nat) :
      SchedStep k ⟨pend, pre ++ [] :: post, orphans⟩ ⟨pend, pre ++ post, orphans⟩
  | reject (pend pre post : List (List String)) (orphans : Nat)
      (f : String) (fs : List String) :
      SchedStep k ⟨pend, pre ++ (f :: fs) :: post, orphans⟩
        ⟨pend, pre ++ post, orphans + fs.length⟩
  | orphanFinishOne (pend act : List (List String)) (n : Nat) :
      SchedStep k ⟨pend, act, n + 1⟩ ⟨pend, act, n⟩

/-- States reachable by a run over the image list `imgs` with limit `k`. -/
inductive SchedReachable (k : Nat) (imgs : List (List String)) : SchedState → Prop
  | init : SchedReachable k imgs ⟨imgs, [], 0⟩
  | step {s t : SchedState} :
      SchedReachable k imgs s → SchedStep k s t → SchedReachable k imgs t

/-- The fan-out of one discovered image: the target formats configured for
its parsed extension (`Object.entries(formatSettings)` in `#convertImage`). -/
def formatFanout (cfg : RunConfig) (imagePath : String) : List String :=
  match parseImagePath (formatKeys cfg) imagePath with
  | none => []
  | some info => (lookupFormats cfg info.extension).map (fun kv => kv.1)

/-- The largest per-image fan-out of a run. -/
def maxFanout (imgs : List (List String)) : Nat :=
  imgs.foldr (fun l m => max l.length m) 0

/-- A config with two target formats for `png` (the commented-out `avif`
entry of `#DEFAULT_CONFIG` enabled) and `maxConcurrency` 1. -/
def cfgTwoFormats : RunConfig :=
  { defaultConfig with
    conversionFormats :=
      [("png", [("webp", { quality := 80 }), ("avif", { quality := 60 })]),
       ("jpg", [("webp", { quality := 80 })]),
       ("jpeg", [("webp", { quality := 80 })])]
    maxConcurrency := 1 }

/-! ## Constructor config merge (raw object view, claim C10)

The constructor (lines 247-257) builds
`this.#config = { ...ImageProcessor.#DEFAULT_CONFIG, ...customConfig }`.
Spread syntax copies only the top-level own enumerable properties, so a
nested object supplied by `customConfig` replaces the default object as a
whole.  JS objects are modelled as association lists of unique string keys
in insertion order; property access reads the first matching key. -/

/-- A JSON-like JavaScript value. -/
inductive JsValue where
  | str (s : String) : JsValue
  | num (n : Int) : JsValue
  | boolean (b : Bool) : JsValue
  | arr (items : List JsValue) : JsValue
  | obj (fields : List (String × JsValue)) : JsValue

/-- Property access on an object's field list (first matching key). -/
def jsLookup : List (String × JsValue) → String → Option JsValue
  | [], _ => none
  | (k0, v) :: rest, k => if k0 = k then some v else jsLookup rest k

/-- `{ ...d, ...c }`: the keys of `d` in order, each with `c`'s value when
`c` also has the key, followed by the keys only `c` has, in `c`'s order
(a key belongs to `d` exactly when `jsLookup d` finds it). -/
def shallowMerge (d c : List (String × JsValue)) : List (String × JsValue) :=
  d.map (fun kv => (kv.1, (jsLookup c kv.1).getD kv.2)) ++
    c.filter (fun kv => (jsLookup d kv.1).isNone)

/-- `#DEFAULT_CONFIG` (lines 200-238) as a raw object. -/
def defaultConfigJs : List (String × JsValue) :=
  [("sourceDirectory", .str "src"),
   ("outputDirectory", .str "dist"),
   ("outputSettings", .obj
     [("keepIccProfile", .boolean true),
      ("keepMetadata", .boolean false),
      ("keepMetadataKeys", .arr
        [.str "exif", .str "iptc", .str "xmp", .str "orientation",
         .str "copyright", .str "rating"])]),
   ("resizeConfig", .obj
     [("width", .num 1920), ("height", .num 1920), ("fit", .str "inside"),
      ("position", .str "center"), ("withoutEnlargement", .boolean true)]),
   ("conversionFormats", .obj
     [("png", .obj [("webp", .obj [("quality", .num 80)])]),
      ("jpg", .obj [("webp", .obj [("quality", .num 80)])]),
      ("jpeg", .obj [("webp", .obj [("quality", .num 80)])])]),
   ("maxConcurrency", .num 5),
   ("generateReport", .boolean true)]

/-- A sample `customConfig` supplying a partial `outputSettings` object
(only `keepMetadata`, leaving `keepIccProfile` and `keepMetadataKeys`
unspecified). -/
def sampleCustomConfig : List (String × JsValue) :=
  [("outputSettings", .obj [("keepMetadata", .boolean true)])]

/-- Decidable equality for outcomes, so concrete runs can be checked by
`decide`. -/
instance exceptDecEq {e a : Type} [DecidableEq e] [DecidableEq a] :
    DecidableEq (Except e a) := fun x y =>
  match x, y with
  | .error u, .error v =>
    if h : u = v then .isTrue (by rw [h]) else .isFalse (by simp [h])
  | .ok u, .ok v =>
    if h : u = v then .isTrue (by rw [h]) else .isFalse (by simp [h])
  | .error _, .ok _ => .isFalse (by simp)
  | .ok _, .error _ => .isFalse (by simp)

/-! ## Concrete fixtures for witnesses and counterexamples -/

/-- An oracle on which every external call succeeds trivially: no metadata,
directories create fine, all files read as zero bytes, every encode works. -/
def oracleZero : CodecOracle where
  metadataOf := fun _ => .ok []
  mkdirResult := fun _ => .ok ()
  sizeOf := fun _ => 0
  encodeResult := fun _ _ => .ok ()
  outSizeOf := fun _ => 0

/-- `oracleZero` with metadata extraction failing on every path. -/
def oracleMetaFail : CodecOracle :=
  { oracleZero with metadataOf := fun _ => .error "boom" }

/-- The conversion result `processImages defaultConfig oracleZero ["src/a.png"]`
produces (all sizes zero, hence a `0/0` ratio of NaN). -/
def sampleResultPng : ConversionResult where
  sourcePath := "src/a.png"
  outputPath := "dist/a.webp"
  originalSize := 0
  convertedSize := 0
  ratioPct := .nan
  format := "webp"
  metadata := []

/-! ## Helper lemmas -/

/-- Appending to a fixed string on the left is injective. -/
theorem string_append_cancel_left (a b c : String) : a ++ b = a ++ c ↔ b = c := by
  constructor
  · intro h
    have h2 : a.data ++ b.data = a.data ++ c.data := by
      have h1 := congrArg String.data h
      simpa [String.data_append] using h1
    have h3 : b.data = c.data := List.append_cancel_left h2
    exact String.ext h3
  · intro h
    rw [h]

/-- Boolean `contains` on a string list agrees with membership. -/
theorem contains_iff_mem (l : List String) (x : String) :
    l.contains x = true ↔ x ∈ l := by
  simp [List.contains, List.elem_iff]

/-! ## Claim C1 -/

/-- C1 counterexample: under the default config, the distinct valid pairs
`("src/a.png", "webp")` and `("src/a.jpg", "webp")` — both paths under the
source directory, both extensions recognized conversion-format keys — map to
the same output path `dist/a.webp`, so `createOutputPath` is not injective. -/
theorem createOutputPath_collision_cross_extension :
    createOutputPath defaultConfig "src/a.png" "webp" = "dist/a.webp" ∧
    createOutputPath defaultConfig "src/a.jpg" "webp" = "dist/a.webp" ∧
    ("src/a.png" : String) ≠ "src/a.jpg" ∧
    startsWithList "src/".data "src/a.png".data = true ∧
    startsWithList "src/".data "src/a.jpg".data = true ∧
    "png" ∈ formatKeys defaultConfig ∧ "jpg" ∈ formatKeys defaultConfig := by
  refine ⟨by decide, by decide, by decide, by decide, by decide, by decide, by decide⟩

/-- C1 (amended): `createOutputPath` is deterministic (it is a function of
the config and the pair) and injective in the target format for each fixed
source path; it is not injective across source paths — two sources that
differ only in their recognized extension collide (see the counterexample). -/
theorem createOutputPath_format_inj (cfg : RunConfig) (s f g : String) :
    createOutputPath cfg s f = createOutputPath cfg s g ↔ f = g :=
  string_append_cancel_left _ f g

/-! ## Claim C4 -/

/-- C4 counterexample: the code has no divide-by-zero guard, so a zero-byte
source image yields `-Infinity` (or `NaN` when the output is also empty),
never the claimed `0`. -/
theorem compression_zero_size_counterexample :
    compressionRatioPct 0 5 = JsNum.negInf ∧
    compressionRatioPct 0 0 = JsNum.nan ∧
    compressionRatioPct 0 5 ≠ JsNum.num 0 ∧
    compressionRatioPct 0 0 ≠ JsNum.num 0 := by
  refine ⟨by decide, by decide, by decide, by decide⟩

/-- C4 (amended): for a nonzero original size the computed ratio is exactly
`(1 - convertedSize / originalSize) * 100` (in the exact-rational model);
for a zero original size the unguarded division produces `-Infinity` or
`NaN`, not `0`. -/
theorem compression_formula_nonzero (o c : Nat) (h : o ≠ 0) :
    compressionRatioPct o c = .num ((1 - (c : ℚ) / (o : ℚ)) * 100) := by
  have ho : ((o : ℚ)) ≠ 0 := Nat.cast_ne_zero.mpr h
  simp [compressionRatioPct, jsDiv, jsSub, jsMul, ho]

/-- Witness for C4's amended theorem at original size 200, converted size 50. -/
theorem compression_formula_nonzero_witness :
    compressionRatioPct 200 50 = .num ((1 - (50 : ℚ) / (200 : ℚ)) * 100) :=
  compression_formula_nonzero 200 50 (by decide)

/-! ## Claim C7 -/

/-- C7: `filterMetadata` keeps exactly the entries whose key is in the
allow-list, with the values untouched. -/
theorem filterMetadata_mem_iff (allowed : List String) (m : List (String × String))
    (k v : String) :
    (k, v) ∈ filterMetadata allowed m ↔ (k, v) ∈ m ∧ k ∈ allowed := by
  simp [filterMetadata, List.mem_filter, contains_iff_mem]

/-! ## Claim C10 -/

/-- Lookup distributes over list append: the left list wins. -/
theorem jsLookup_append (a b : List (String × JsValue)) (k : String) :
    jsLookup (a ++ b) k =
      match jsLookup a k with
      | some v => some v
      | none => jsLookup b k := by
  induction a with
  | nil => simp [jsLookup]
  | cons hd tl ih =>
    by_cases h : hd.1 = k
    · simp [jsLookup, h]
    · simp [jsLookup, h, ih]

/-- Lookup after a key-preserving value override. -/
theorem jsLookup_map_override (d c : List (String × JsValue)) (k : String) :
    jsLookup (d.map fun kv => (kv.1, (jsLookup c kv.1).getD kv.2)) k =
      (jsLookup d k).map fun v => (jsLookup c k).getD v := by
  induction d with
  | nil => simp [jsLookup]
  | cons hd tl ih =>
    by_cases h : hd.1 = k
    · subst h
      simp [jsLookup]
    · simp [jsLookup, h, ih]

/-- Lookup after removing the keys the default object already has. -/
theorem jsLookup_filter_out (d c : List (String × JsValue)) (k : String) :
    jsLookup (c.filter fun kv => (jsLookup d kv.1).isNone) k =
      if (jsLookup d k).isNone then jsLookup c k else none := by
  induction c with
  | nil => cases (jsLookup d k).isNone <;> simp [jsLookup]
  | cons hd tl ih =>
    by_cases hm : (jsLookup d hd.1).isNone = true
    · by_cases h : hd.1 = k
      · subst h
        simp [List.filter_cons, hm, jsLookup]
      · simp [List.filter_cons, hm, jsLookup, h, ih]
    · have hm2 : (jsLookup d hd.1).isNone = false := by
        cases hval : jsLookup d hd.1
        · exact absurd (by simp [hval]) hm
        · simp [hval]
      by_cases h : hd.1 = k
      · subst h
        simp [List.filter_cons, hm2, jsLookup, ih]
      · simp [List.filter_cons, hm2, jsLookup, h, ih]

/-- Lookup in a shallow merge: the custom object wins key by key. -/
theorem shallowMerge_lookup (d c : List (String × JsValue)) (k : String) :
    jsLookup (shallowMerge d c) k =
      match jsLookup c k with
      | some v => some v
      | none => jsLookup d k := by
  unfold shallowMerge
  rw [jsLookup_append, jsLookup_map_override, jsLookup_filter_out]
  cases hd : jsLookup d k <;> cases hc : jsLookup c k <;> simp [hc]

/-- C10: the constructor's `{ ...DEFAULT_CONFIG, ...customConfig }` merge is
a shallow top-level spread — a top-level key supplied by `customConfig`
wholly replaces the default value (even a nested object), and keys it does
not supply keep the default; concretely, supplying
`outputSettings = { keepMetadata: true }` yields a merged `outputSettings`
without `keepIccProfile`/`keepMetadataKeys`, though the default had them. -/
theorem constructor_shallow_merge :
    (∀ (custom : List (String × JsValue)) (k : String),
      jsLookup (shallowMerge defaultConfigJs custom) k =
        match jsLookup custom k with
        | some v => some v
        | none => jsLookup defaultConfigJs k) ∧
    jsLookup (shallowMerge defaultConfigJs sampleCustomConfig) "outputSettings" =
      some (JsValue.obj [("keepMetadata", JsValue.boolean true)]) ∧
    jsLookup defaultConfigJs "outputSettings" =
      some (JsValue.obj
        [("keepIccProfile", JsValue.boolean true),
         ("keepMetadata", JsValue.boolean false),
         ("keepMetadataKeys", JsValue.arr
           [.str "exif", .str "iptc", .str "xmp", .str "orientation",
            .str "copyright", .str "rating"])]) := by
  refine ⟨fun custom k => shallowMerge_lookup defaultConfigJs custom k, rfl, rfl⟩

/-! ## Claim C5 -/

/-- A character is absent exactly when `lastIdx` finds nothing. -/
theorem lastIdx_eq_none_iff (c : Char) (l : List Char) :
    lastIdx c l = none ↔ c ∉ l := by
  induction l with
  | nil => simp [lastIdx]
  | cons a rest ih =>
    cases hrest : lastIdx c rest with
    | some n =>
      have hc : c ∈ rest := by
        by_contra hnot
        rw [ih.mpr hnot] at hrest
        exact Option.noConfusion hrest
      simp [lastIdx, hrest, hc]
    | none =>
      by_cases hac : a = c
      · simp [lastIdx, hrest, hac]
      · simp only [lastIdx, hrest, if_neg hac, List.mem_cons]
        simp only [true_iff]
        exact fun hor => hor.elim (fun h => hac h.symm) (fun h => ih.mp hrest h)

/-- `lastIdx` finds the marker of a decomposition whose tail avoids it. -/
theorem lastIdx_concat (n e : List Char) (c : Char) (he : c ∉ e) :
    lastIdx c (n ++ c :: e) = some n.length := by
  induction n with
  | nil => simp [lastIdx, (lastIdx_eq_none_iff c e).mpr he]
  | cons a rest ih => simp [lastIdx, ih]

/-- A successful `lastIdx` splits the list at its last occurrence. -/
theorem lastIdx_take_drop (c : Char) (l : List Char) (i : Nat)
    (h : lastIdx c l = some i) :
    l = l.take i ++ c :: l.drop (i + 1) ∧ c ∉ l.drop (i + 1) := by
  induction l generalizing i with
  | nil => simp [lastIdx] at h
  | cons a rest ih =>
    cases hrest : lastIdx c rest with
    | some n =>
      rw [lastIdx, hrest] at h
      have hin : i = n + 1 := by
        injection h with h2
        omega
      subst hin
      obtain ⟨h1, h2⟩ := ih n hrest
      refine ⟨?_, by simpa using h2⟩
      simp only [List.take_succ_cons, List.drop_succ_cons, List.cons_append]
      exact congrArg (List.cons a) h1
    | none =>
      rw [lastIdx, hrest] at h
      by_cases hac : a = c
      · rw [if_pos hac] at h
        have hi0 : i = 0 := by
          injection h with h2
          omega
        subst hi0
        subst hac
        exact ⟨by simp, by simpa using (lastIdx_eq_none_iff a rest).mp hrest⟩
      · rw [if_neg hac] at h
        exact Option.noConfusion h

/-- Every greedy split really decomposes the segment at a dot. -/
theorem mem_greedySplits (seg : List Char) (p : List Char × List Char)
    (h : p ∈ greedySplits seg) : seg = p.1 ++ ('.') :: p.2 := by
  induction seg generalizing p with
  | nil => simp [greedySplits] at h
  | cons a rest ih =>
    rw [greedySplits] at h
    rcases List.mem_append.mp h with hmap | hif
    · obtain ⟨q, hq, rfl⟩ := List.mem_map.mp hmap
      simp [ih q hq]
    · by_cases hac : a = '.'
      · rw [if_pos hac] at hif
        simp at hif
        subst hif
        simp [hac]
      · rw [if_neg hac] at hif
        simp at hif

/-- Every dot decomposition appears among the greedy splits. -/
theorem greedySplits_mem (n e : List Char) :
    (n, e) ∈ greedySplits (n ++ ('.') :: e) := by
  induction n with
  | nil => simp [greedySplits]
  | cons a rest ih =>
    rw [List.cons_append, greedySplits]
    exact List.mem_append.mpr (Or.inl (List.mem_map.mpr ⟨(rest, e), ih, rfl⟩))

/-- When at most one list element can satisfy the predicate, `find?` reduces
to testing that element. -/
theorem find?_of_unique {α : Type} (L : List α) (pred : α → Bool) (x : α)
    (hx : x ∈ L) (huniq : ∀ p ∈ L, pred p = true → p = x) :
    L.find? pred = if pred x = true then some x else none := by
  by_cases hpx : pred x = true
  · rw [if_pos hpx]
    induction L with
    | nil => simp at hx
    | cons a as ih =>
      rcases List.mem_cons.mp hx with rfl | hmem
      · exact List.find?_cons_of_pos as hpx
      · by_cases hpa : pred a = true
        · have ha : a = x := huniq a (List.mem_cons_self a as) hpa
          subst ha
          exact List.find?_cons_of_pos as hpa
        · rw [List.find?_cons_of_neg as (by simpa using hpa)]
          exact ih hmem (fun p hp hpred => huniq p (List.mem_cons_of_mem a hp) hpred)
  · rw [if_neg hpx]
    refine List.find?_eq_none.mpr (fun y hy hpy => ?_)
    have hyx : y = x := huniq y hy hpy
    rw [hyx] at hpy
    exact hpx hpy

/-- With lowercase keys, matching the key alternation case-insensitively is
membership of the lowercased candidate. -/
theorem ciMatchesKey_iff (keys : List String) (e : List Char)
    (hlow : ∀ k ∈ keys, k.data.map Char.toLower = k.data) :
    ciMatchesKey keys e = true ↔ String.mk (e.map Char.toLower) ∈ keys := by
  unfold ciMatchesKey
  rw [List.any_eq_true]
  constructor
  · rintro ⟨k, hk, hbeq⟩
    have heq : e.map Char.toLower = k.data.map Char.toLower := by simpa using hbeq
    rw [hlow k hk] at heq
    have hs : String.mk (e.map Char.toLower) = k := by
      rw [heq]
    rw [hs]
    exact hk
  · intro hmem
    refine ⟨String.mk (e.map Char.toLower), hmem, ?_⟩
    have hlow2 := hlow _ hmem
    have hdata : (String.mk (e.map Char.toLower)).data = e.map Char.toLower := rfl
    rw [hdata] at hlow2
    rw [beq_iff_eq, hdata]
    exact hlow2.symm

/-- With dot-free lowercase keys, a matching extension candidate contains no
dot. -/
theorem ciMatches_no_dot (keys : List String) (e : List Char)
    (hlow : ∀ k ∈ keys, k.data.map Char.toLower = k.data)
    (hdot : ∀ k ∈ keys, ('.') ∉ k.data)
    (hci : ciMatchesKey keys e = true) : ('.') ∉ e := by
  intro hmem
  unfold ciMatchesKey at hci
  rw [List.any_eq_true] at hci
  obtain ⟨k, hk, hbeq⟩ := hci
  have heq : e.map Char.toLower = k.data.map Char.toLower := by simpa using hbeq
  rw [hlow k hk] at heq
  have hdk : ('.') ∈ k.data := by
    rw [← heq]
    exact List.mem_map.mpr ⟨'.', hmem, by decide⟩
  exact hdot k hk hdk

/-- Under dot-free lowercase keys the greedy regex match on the final segment
is the last-dot split, accepted exactly when the base name is nonempty and
the extension is recognized. -/
theorem segMatchGreedy_eq (keys : List String) (seg : List Char)
    (hlow : ∀ k ∈ keys, k.data.map Char.toLower = k.data)
    (hdot : ∀ k ∈ keys, ('.') ∉ k.data) :
    segMatchGreedy keys seg =
      match lastIdx ('.') seg with
      | none => none
      | some i =>
        if seg.take i ≠ [] ∧ ciMatchesKey keys (seg.drop (i + 1)) = true then
          some (seg.take i, seg.drop (i + 1))
        else none := by
  cases hli : lastIdx ('.') seg with
  | none =>
    have hnd : ('.') ∉ seg := (lastIdx_eq_none_iff ('.') seg).mp hli
    have hempty : greedySplits seg = [] := by
      cases hg : greedySplits seg with
      | nil => rfl
      | cons p ps =>
        exfalso
        apply hnd
        rw [mem_greedySplits seg p (by rw [hg]; exact List.mem_cons_self _ _)]
        exact List.mem_append.mpr (Or.inr (List.mem_cons_self _ _))
    unfold segMatchGreedy
    rw [hempty]
    rfl
  | some i =>
    obtain ⟨hdecomp, hfree⟩ := lastIdx_take_drop ('.') seg i hli
    have hmem : (seg.take i, seg.drop (i + 1)) ∈ greedySplits seg := by
      have h2 := greedySplits_mem (seg.take i) (seg.drop (i + 1))
      rwa [← hdecomp] at h2
    have huniq : ∀ p ∈ greedySplits seg,
        (!p.1.isEmpty && ciMatchesKey keys p.2) = true →
        p = (seg.take i, seg.drop (i + 1)) := by
      intro p hp hpred
      have hdec2 : seg = p.1 ++ ('.') :: p.2 := mem_greedySplits seg p hp
      have hci : ciMatchesKey keys p.2 = true := by
        simp at hpred
        exact hpred.2
      have hfree2 : ('.') ∉ p.2 := ciMatches_no_dot keys p.2 hlow hdot hci
      have hli2 : lastIdx ('.') seg = some p.1.length := by
        rw [hdec2]
        exact lastIdx_concat p.1 p.2 ('.') hfree2
      rw [hli] at hli2
      have hlen : i = p.1.length := Option.some.inj hli2
      subst hlen
      have h1 : seg.take p.1.length = p.1 := by
        rw [hdec2]
        exact List.take_left p.1 _
      have h2 : seg.drop (p.1.length + 1) = p.2 := by
        rw [hdec2, show p.1 ++ ('.') :: p.2 = (p.1 ++ [('.')]) ++ p.2 by simp]
        have h3 := List.drop_left (p.1 ++ [('.')]) p.2
        have hlen2 : (p.1 ++ [('.')]).length = p.1.length + 1 := by simp
        rw [hlen2] at h3
        exact h3
      rw [h1, h2]
    unfold segMatchGreedy
    rw [find?_of_unique (greedySplits seg) _ _ hmem huniq]
    show (if (!(seg.take i).isEmpty && ciMatchesKey keys (seg.drop (i + 1))) = true then
        some (seg.take i, seg.drop (i + 1))
      else none) =
      (if seg.take i ≠ [] ∧ ciMatchesKey keys (seg.drop (i + 1)) = true then
        some (seg.take i, seg.drop (i + 1))
      else none)
    by_cases hb : (!(seg.take i).isEmpty && ciMatchesKey keys (seg.drop (i + 1))) = true
    · rw [if_pos hb]
      have hcond : seg.take i ≠ [] ∧ ciMatchesKey keys (seg.drop (i + 1)) = true := by
        simpa [List.isEmpty_iff] using hb
      rw [if_pos hcond]
    · rw [if_neg hb]
      have hcond : ¬(seg.take i ≠ [] ∧ ciMatchesKey keys (seg.drop (i + 1)) = true) := by
        intro hcon
        exact hb (by simpa [List.isEmpty_iff] using hcon)
      rw [if_neg hcond]

/-- C5 counterexample: the `#parseImagePath` regex requires a `/` before the
final segment, so the bare filename `a.png` yields `null` even though its
lowercased extension `png` is a recognized conversion-format key — refuting
the claim that a recognized extension always yields `{ name, extension }`
and that `null` is returned exactly for unrecognized extensions. -/
theorem parseImagePath_bare_filename_counterexample :
    parseImagePath (formatKeys defaultConfig) "a.png" = none ∧
    "png" ∈ formatKeys defaultConfig := by
  refine ⟨by decide, by decide⟩

/-- C5 (amended): provided the configured keys are lowercase and dot-free
(the spec's stated invariant on `conversionFormats`), `parseImagePath`
returns the final segment's base name (up to the last dot, nonempty) and the
lowercased extension exactly when that lowercased extension is a recognized
key — but only for paths that contain a `/` separator; a bare filename
yields `null` regardless of its extension (see the counterexample). -/
theorem parseImagePath_matches_spec (keys : List String) (p : String)
    (hlow : ∀ k ∈ keys, k.data.map Char.toLower = k.data)
    (hdot : ∀ k ∈ keys, ('.') ∉ k.data) :
    parseImagePath keys p = parseImagePathSpec keys p := by
  unfold parseImagePath parseImagePathSpec
  cases hseg : afterLastChar '/' p.data with
  | none => rfl
  | some seg =>
    show (match segMatchGreedy keys seg with
        | none => none
        | some q =>
          some (ImagePathInfo.mk (String.mk q.1) (String.mk (q.2.map Char.toLower)))) =
      (match lastIdx ('.') seg with
        | none => none
        | some i =>
          if seg.take i ≠ [] ∧ String.mk ((seg.drop (i + 1)).map Char.toLower) ∈ keys then
            some (ImagePathInfo.mk (String.mk (seg.take i))
              (String.mk ((seg.drop (i + 1)).map Char.toLower)))
          else none)
    rw [segMatchGreedy_eq keys seg hlow hdot]
    cases hli : lastIdx ('.') seg with
    | none => rfl
    | some i =>
      show (match (if seg.take i ≠ [] ∧ ciMatchesKey keys (seg.drop (i + 1)) = true then
            some (seg.take i, seg.drop (i + 1))
          else none) with
        | none => none
        | some q =>
          some (ImagePathInfo.mk (String.mk q.1) (String.mk (q.2.map Char.toLower)))) =
        (if seg.take i ≠ [] ∧ String.mk ((seg.drop (i + 1)).map Char.toLower) ∈ keys then
          some (ImagePathInfo.mk (String.mk (seg.take i))
            (String.mk ((seg.drop (i + 1)).map Char.toLower)))
        else none)
      by_cases hc : seg.take i ≠ [] ∧ ciMatchesKey keys (seg.drop (i + 1)) = true
      · rw [if_pos hc,
          if_pos ⟨hc.1, (ciMatchesKey_iff keys _ hlow).mp hc.2⟩]
      · rw [if_neg hc,
          if_neg (fun hcon => hc ⟨hcon.1, (ciMatchesKey_iff keys _ hlow).mpr hcon.2⟩)]

/-- Witness for C5's amended theorem: on `src/img/Photo.PNG` with the default
keys, the regex parser and the spec-level description agree. -/
theorem parseImagePath_matches_spec_witness :
    parseImagePath (formatKeys defaultConfig) "src/img/Photo.PNG" =
      parseImagePathSpec (formatKeys defaultConfig) "src/img/Photo.PNG" ∧
    parseImagePath (formatKeys defaultConfig) "src/img/Photo.PNG" =
      some ⟨"Photo", "png"⟩ :=
  ⟨parseImagePath_matches_spec (formatKeys defaultConfig) "src/img/Photo.PNG"
      (by decide) (by decide),
    by decide⟩

/-! ## Claim C2 -/

/-- C2 counterexample: with the `avif` entry enabled (`png` mapped to both
`webp` and `avif`) and `maxConcurrency = 1`, one admission already puts two
Conversion Tasks in the `Encoding` state — more than `maxConcurrency` —
because the limiter wraps whole `#convertImage` calls, not per-format
conversions.  Moreover the rejection path breaks even a
`maxConcurrency × fan-out` bound: after one of the first image's two encodes
fails, its slot is freed while the sibling encode keeps running, a second
two-format image is admitted, and three tasks encode at once, exceeding
`1 * maxFanout = 2`. -/
theorem sched_concurrency_exceeded :
    formatFanout cfgTwoFormats "src/a.png" = ["webp", "avif"] ∧
    cfgTwoFormats.maxConcurrency = 1 ∧
    SchedReachable 1 [["webp", "avif"]] ⟨[], [["webp", "avif"]], 0⟩ ∧
    1 < encodingCount ⟨[], [["webp", "avif"]], 0⟩ ∧
    SchedReachable 1 [["webp", "avif"], ["webp", "avif"]]
      ⟨[], [["webp", "avif"]], 1⟩ ∧
    1 * maxFanout [["webp", "avif"], ["webp", "avif"]] <
      encodingCount ⟨[], [["webp", "avif"]], 1⟩ := by
  refine ⟨by decide, by decide, ?_, by decide, ?_, by decide⟩
  · exact SchedReachable.step SchedReachable.init
      (SchedStep.begin ["webp", "avif"] [] [] 0 (by decide))
  · exact SchedReachable.step
      (SchedReachable.step
        (SchedReachable.step SchedReachable.init
          (SchedStep.begin ["webp", "avif"] [["webp", "avif"]] [] 0 (by decide)))
        (SchedStep.reject [["webp", "avif"]] [] [] 0 "webp" ["avif"]))
      (SchedStep.begin ["webp", "avif"] [] [] 1 (by decide))

/-- C2 (amended): the only concurrency bound the code honors is on admitted
images — in every reachable state at most `maxConcurrency` `#convertImage`
calls hold a limiter slot.  Conversion Tasks are not bounded by
`maxConcurrency`: one admitted image starts all its target formats at once,
and on the rejection path orphaned sibling encodes outlive their slot, so
even `maxConcurrency × fan-out` is exceeded (see the counterexample). -/
theorem sched_concurrency_bound (k : Nat) (imgs : List (List String))
    (s : SchedState) (h : SchedReachable k imgs s) :
    s.active.length ≤ k := by
  induction h with
  | init => exact Nat.zero_le k
  | step hreach hstep ih =>
    cases hstep with
    | begin img rest act orphans hact => exact hact
    | finishOne pend pre post orphans f fs =>
      simp only [List.length_append, List.length_cons] at ih ⊢
      omega
    | settle pend pre post orphans =>
      simp only [List.length_append, List.length_cons] at ih ⊢
      omega
    | reject pend pre post orphans f fs =>
      simp only [List.length_append, List.length_cons] at ih ⊢
      omega
    | orphanFinishOne pend act n => exact ih

/-- Witness for C2's amended theorem at the initial state of a one-image
run with `maxConcurrency = 1`. -/
theorem sched_concurrency_bound_witness :
    (SchedState.mk [["webp"]] [] 0).active.length ≤ 1 :=
  sched_concurrency_bound 1 [["webp"]] ⟨[["webp"]], [], 0⟩ SchedReachable.init

/-! ## Pipeline lemmas (claims C3, C6, C8, C9) -/

/-- Every result of a per-image format batch carries the image-level
metadata override. -/
theorem convertFormats_metadata (cfg : RunConfig) (oracle : CodecOracle)
    (imagePath : String) (meta : List (String × String)) (originalSize : Nat)
    (l : List (String × FormatSettings)) (rs : List ConversionResult)
    (h : convertFormats cfg oracle imagePath meta originalSize l = .ok rs) :
    ∀ r ∈ rs, r.metadata = meta := by
  induction l generalizing rs with
  | nil =>
    simp [convertFormats] at h
    subst h
    simp
  | cons hd tl ih =>
    obtain ⟨fmt, fset⟩ := hd
    cases hcf : convertToFormat cfg oracle imagePath fmt fset meta with
    | error e => rw [convertFormats, hcf] at h; simp at h
    | ok r =>
      cases hrest : convertFormats cfg oracle imagePath meta originalSize tl with
      | error e => rw [convertFormats, hcf, hrest] at h; simp at h
      | ok rs2 =>
        rw [convertFormats, hcf, hrest] at h
        simp at h
        subst h
        intro x hx
        rcases List.mem_cons.mp hx with rfl | hx2
        · rfl
        · exact ih rs2 hrest x hx2

/-- With `keepMetadata` disabled, extraction always returns the empty
record. -/
theorem extractMetadata_keepFalse (cfg : RunConfig) (oracle : CodecOracle)
    (p : String) (h : cfg.outputSettings.keepMetadata = false) :
    (extractMetadata cfg oracle p).1 = [] := by
  unfold extractMetadata
  cases hm : oracle.metadataOf p with
  | ok m => simp [h]
  | error e => simp

/-- With `keepMetadata` disabled, every result of a successful image task
has empty metadata. -/
theorem convertImage_metadata_empty (cfg : RunConfig) (oracle : CodecOracle)
    (p : String) (rs : List ConversionResult)
    (hmeta : cfg.outputSettings.keepMetadata = false)
    (h : convertImage cfg oracle p = .ok rs) :
    ∀ r ∈ rs, r.metadata = [] := by
  unfold convertImage at h
  cases hp : parseImagePath (formatKeys cfg) p with
  | none => rw [hp] at h; simp at h
  | some info =>
    rw [hp] at h
    cases hd : ensureOutputDirectory cfg oracle p with
    | error e => rw [hd] at h; simp at h
    | ok logs =>
      rw [hd] at h
      intro r hr
      have hmem := convertFormats_metadata cfg oracle p
        ((extractMetadata cfg oracle p).1) (oracle.sizeOf p)
        (lookupFormats cfg info.extension) rs h r hr
      rw [hmem, extractMetadata_keepFalse cfg oracle p hmeta]

/-- Every batch of a successful fan-out run comes from one input image. -/
theorem mapConvert_mem (cfg : RunConfig) (oracle : CodecOracle)
    (paths : List String) (batches : List (List ConversionResult))
    (h : mapConvert cfg oracle paths = .ok batches)
    (rs : List ConversionResult) (hrs : rs ∈ batches) :
    ∃ p ∈ paths, convertImage cfg oracle p = .ok rs := by
  induction paths generalizing batches with
  | nil =>
    simp [mapConvert] at h
    subst h
    simp at hrs
  | cons q qs ih =>
    rw [mapConvert] at h
    cases hq : convertImage cfg oracle q with
    | error e => rw [hq] at h; simp at h
    | ok rs1 =>
      rw [hq] at h
      cases hrest : mapConvert cfg oracle qs with
      | error e => rw [hrest] at h; simp at h
      | ok rest2 =>
        rw [hrest] at h
        simp at h
        subst h
        rcases List.mem_cons.mp hrs with rfl | h2
        · exact ⟨q, List.mem_cons_self _ _, hq⟩
        · obtain ⟨p, hp, hcp⟩ := ih rest2 hrest h2
          exact ⟨p, List.mem_cons_of_mem _ hp, hcp⟩

/-- One failing image task makes the whole fan-out fail. -/
theorem mapConvert_error (cfg : RunConfig) (oracle : CodecOracle)
    (paths : List String) (p : String) (e0 : TaskError)
    (hmem : p ∈ paths) (herr : convertImage cfg oracle p = .error e0) :
    ∃ e, mapConvert cfg oracle paths = .error e := by
  induction paths with
  | nil => simp at hmem
  | cons q qs ih =>
    rw [mapConvert]
    cases hq : convertImage cfg oracle q with
    | error e => exact ⟨e, rfl⟩
    | ok rs1 =>
      rcases List.mem_cons.mp hmem with rfl | h2
      · rw [hq] at herr
        simp at herr
      · obtain ⟨e, he⟩ := ih h2
        rw [he]
        exact ⟨e, rfl⟩

/-! ## Claim C3 -/

/-- C3 counterexample: the discovered path `src/a.txt` has an unrecognized
extension (`parseImagePath` returns `null`), yet the task throws
`無効な画像パス` instead of logging and skipping, and the whole run fails with
that error — refuting skip-and-continue. -/
theorem invalid_path_not_skipped_counterexample :
    parseImagePath (formatKeys defaultConfig) "src/a.txt" = none ∧
    convertImage defaultConfig oracleZero "src/a.txt" =
      .error (.invalidImagePath "src/a.txt") ∧
    (runPipeline defaultConfig oracleZero ["src/a.txt"] (.ok ())).1 =
      .error (.invalidImagePath "src/a.txt") := by
  refine ⟨by decide, by decide, by decide⟩

/-- C3 (amended): a scheduled path on which `parseImagePath` returns `null`
makes its conversion task throw `InvalidImagePath`, and that error
propagates: the run never finishes successfully — the path is *not* logged
and skipped. -/
theorem invalid_path_fatal (cfg : RunConfig) (oracle : CodecOracle)
    (paths : List String) (p : String) (wr : Except String Unit)
    (hmem : p ∈ paths)
    (hparse : parseImagePath (formatKeys cfg) p = none) :
    convertImage cfg oracle p = .error (.invalidImagePath p) ∧
    (runPipeline cfg oracle paths wr).1 ≠ .ok () := by
  have hconv : convertImage cfg oracle p = .error (.invalidImagePath p) := by
    unfold convertImage
    rw [hparse]
  refine ⟨hconv, ?_⟩
  obtain ⟨e, he⟩ := mapConvert_error cfg oracle paths p _ hmem hconv
  have hne : paths.isEmpty = false := by
    cases paths
    · simp at hmem
    · rfl
  unfold runPipeline processImages
  rw [hne, he]
  simp

/-- Witness for C3's amended theorem on a one-element path list. -/
theorem invalid_path_fatal_witness :
    convertImage defaultConfig oracleZero "src/b.txt" =
      .error (.invalidImagePath "src/b.txt") ∧
    (runPipeline defaultConfig oracleZero ["src/b.txt"] (.ok ())).1 ≠ .ok () :=
  invalid_path_fatal defaultConfig oracleZero ["src/b.txt"] "src/b.txt" (.ok ())
    (by simp) (by decide)

/-! ## Claim C6 -/

/-- C6: with `keepMetadata = false`, every ConversionResult a run produces
has an empty metadata record, whatever metadata the codec would report. -/
theorem keepMetadata_false_empty (cfg : RunConfig) (oracle : CodecOracle)
    (paths : List String) (results : List ConversionResult)
    (hmeta : cfg.outputSettings.keepMetadata = false)
    (hrun : processImages cfg oracle paths = .ok results) :
    ∀ r ∈ results, r.metadata = [] := by
  unfold processImages at hrun
  by_cases hempty : paths.isEmpty = true
  · rw [if_pos hempty] at hrun
    have hres : results = [] := by
      simpa using hrun.symm
    subst hres
    simp
  · rw [if_neg hempty] at hrun
    cases hmc : mapConvert cfg oracle paths with
    | error e => rw [hmc] at hrun; simp at hrun
    | ok batches =>
      rw [hmc] at hrun
      have hres : results = batches.flatten := by
        simpa using hrun.symm
      subst hres
      intro r hr
      obtain ⟨rs, hrsmem, hrrs⟩ := List.mem_flatten.mp hr
      obtain ⟨p, hp, hcp⟩ := mapConvert_mem cfg oracle paths batches hmc rs hrsmem
      exact convertImage_metadata_empty cfg oracle p rs hmeta hcp r hrrs

/-- Witness for C6: the default config (which disables `keepMetadata`) on a
sample one-image run yields a result whose metadata record is empty. -/
theorem keepMetadata_false_empty_witness :
    processImages defaultConfig oracleZero ["src/a.png"] = .ok [sampleResultPng] ∧
    sampleResultPng.metadata = [] :=
  ⟨by decide,
    keepMetadata_false_empty defaultConfig oracleZero ["src/a.png"]
      [sampleResultPng] (by decide) (by decide) sampleResultPng (by simp)⟩

/-- A format batch only consults the oracle's size/encode fields. -/
theorem convertFormats_oracle_congr (cfg : RunConfig) (o1 o2 : CodecOracle)
    (hs : o1.sizeOf = o2.sizeOf) (he : o1.encodeResult = o2.encodeResult)
    (ho : o1.outSizeOf = o2.outSizeOf) (imagePath : String)
    (meta : List (String × String)) (originalSize : Nat)
    (l : List (String × FormatSettings)) :
    convertFormats cfg o1 imagePath meta originalSize l =
      convertFormats cfg o2 imagePath meta originalSize l := by
  induction l with
  | nil => rfl
  | cons hd tl ih =>
    obtain ⟨fmt, fset⟩ := hd
    have hcf : convertToFormat cfg o1 imagePath fmt fset meta =
        convertToFormat cfg o2 imagePath fmt fset meta := by
      unfold convertToFormat
      rw [hs, he, ho]
    rw [convertFormats, convertFormats, ih, hcf]

/-! ## Claim C8 -/

/-- C8: when the codec cannot read an image's metadata, `extractMetadata`
degrades to the empty record plus a logged warning, and the task behaves
exactly as if extraction had succeeded with nothing to keep — the failure
never escapes the task. -/
theorem metadata_failure_degrades (cfg : RunConfig) (oracle : CodecOracle)
    (p msg : String) (h : oracle.metadataOf p = .error msg) :
    extractMetadata cfg oracle p = ([], [.metadataWarning p]) ∧
    convertImage cfg oracle p =
      convertImage cfg { oracle with metadataOf := fun _ => .ok [] } p := by
  have hext : extractMetadata cfg oracle p = ([], [.metadataWarning p]) := by
    unfold extractMetadata
    rw [h]
  refine ⟨hext, ?_⟩
  have hext1 : (extractMetadata cfg oracle p).1 = [] := by rw [hext]
  have hext2 :
      (extractMetadata cfg { oracle with metadataOf := fun _ => .ok [] } p).1 = [] := by
    unfold extractMetadata
    cases hk : cfg.outputSettings.keepMetadata <;> simp [filterMetadata]
  unfold convertImage
  rw [hext1, hext2]
  cases hp : parseImagePath (formatKeys cfg) p with
  | none => rfl
  | some info =>
    rw [show ensureOutputDirectory cfg { oracle with metadataOf := fun _ => .ok [] } p =
        ensureOutputDirectory cfg oracle p from rfl]
    cases hd : ensureOutputDirectory cfg oracle p with
    | error e => rfl
    | ok logs =>
      exact convertFormats_oracle_congr cfg oracle
        { oracle with metadataOf := fun _ => .ok [] } rfl rfl rfl p []
        (oracle.sizeOf p) (lookupFormats cfg info.extension)

/-- Witness for C8 with a concrete always-failing metadata oracle. -/
theorem metadata_failure_degrades_witness :
    extractMetadata defaultConfig oracleMetaFail "src/a.png" =
      ([], [.metadataWarning "src/a.png"]) ∧
    convertImage defaultConfig oracleMetaFail "src/a.png" =
      convertImage defaultConfig
        { oracleMetaFail with metadataOf := fun _ => .ok [] } "src/a.png" :=
  metadata_failure_degrades defaultConfig oracleMetaFail "src/a.png" "boom" rfl

/-! ## Claim C9 -/

/-- C9: when all conversions succeed, a failing report write is caught and
logged (`レポート生成に失敗`) and the run still finishes successfully; the
completed conversion results are untouched. -/
theorem report_write_failure_not_fatal (cfg : RunConfig) (oracle : CodecOracle)
    (paths : List String) (results : List ConversionResult) (msg : String)
    (hrun : processImages cfg oracle paths = .ok results)
    (hgen : cfg.generateReport = true)
    (hne : results ≠ []) :
    (runPipeline cfg oracle paths (.error msg)).1 = .ok () ∧
    LogEvent.reportFailed msg ∈ (runPipeline cfg oracle paths (.error msg)).2 := by
  have hie : results.isEmpty = false := by
    cases results with
    | nil => exact absurd rfl hne
    | cons a as => rfl
  unfold runPipeline generateConversionReport
  rw [hrun]
  simp [hgen, hie]

/-- Witness for C9: a sample successful run whose report write fails still
ends in success, with the failure logged. -/
theorem report_write_failure_not_fatal_witness :
    (runPipeline defaultConfig oracleZero ["src/a.png"] (.error "disk full")).1 =
      .ok () ∧
    LogEvent.reportFailed "disk full" ∈
      (runPipeline defaultConfig oracleZero ["src/a.png"] (.error "disk full")).2 :=
  report_write_failure_not_fatal defaultConfig oracleZero ["src/a.png"]
    [sampleResultPng] "disk full" (by decide) rfl (by decide)
